import Mathlib

/-!
Verification development for the cryo `freeze` crate core:
the log extraction / columnar accumulation engine
(`crates/freeze/src/datasets/logs.rs`) and the run report subsystem
(`crates/freeze/src/types/reports.rs`).

Modelling conventions:
* machine integers are `Nat`; byte strings (`H256`, `Address`, `Bytes`)
  are `List Nat`;
* Rust panics (`panic!`, `.expect`, the overflow check inside the uint
  crate's `as_u32`) are modelled as `Option.none`; a function that cannot
  panic on the given input returns `some`;
* mutation of `&mut` structs is modelled by explicit state passing.
-/

namespace Cryo

/-- A decoded ABI value (`ethers_core::abi::Token`); opaque here, only
moved around by the accumulator. -/
structure Token where
  val : Nat
deriving DecidableEq, Repr

/-- Rust `ethers::types::Log`: the raw record handed to `process_logs`.
`block_number` (`Option<U64>`), `transaction_hash` (`Option<TxHash>`),
`transaction_index` (`Option<U64>`), `log_index` (`Option<U256>`) are the
four fields the presence check inspects; `topics` is `Vec<H256>`. -/
structure Log where
  address : List Nat
  topics : List (List Nat)
  data : List Nat
  block_number : Option Nat
  transaction_hash : Option (List Nat)
  transaction_index : Option Nat
  log_index : Option Nat
deriving DecidableEq, Repr

/-- The ABI event decoder carried by a schema (`LogDecoder`); its
`parse_log_from_event` maps a whole batch of raw logs to named dynamic
columns (`HashMap<String, Vec<Token>>`, modelled as a pair list in the
map's iteration order). -/
structure LogDecoder where
  parse_log_from_event : List Log → List (String × List Token)

/-- Rust `Table`: the schema for one datatype — the set of requested column
names plus the optional event decoder. -/
structure Table where
  columns : List String
  log_decoder : Option LogDecoder

/-- Modelled from the spec: `Table::has_column` (declared outside the
given sources) — whether a column name is in the set of requested
columns of the schema. -/
def Table.has_column (t : Table) (name : String) : Bool :=
  t.columns.contains name

/-- Rust `LogColumns`: the columnar accumulator for the logs datatype.
Fixed columns are growable sequences; `event_cols` maps decoded event
field names to their growing value sequences. -/
structure LogColumns where
  n_rows : Nat
  block_number : List Nat
  transaction_index : List Nat
  log_index : List Nat
  transaction_hash : List (List Nat)
  address : List (List Nat)
  topic0 : List (Option (List Nat))
  topic1 : List (Option (List Nat))
  topic2 : List (Option (List Nat))
  topic3 : List (Option (List Nat))
  data : List (List Nat)
  event_cols : List (String × List Token)
deriving DecidableEq, Repr

/-- Rust `#[derive(Default)]` for `LogColumns`: every sequence empty, counter
zero. -/
def LogColumns.default : LogColumns :=
  ⟨0, [], [], [], [], [], [], [], [], [], [], []⟩

/-- The uint crate's `as_u32` (used as `bn.as_u32()` etc. in
`process_logs`): conversion to `u32` with overflow checking — it panics
when the value exceeds `u32::MAX`.  The panic is modelled as `none`. -/
def as_u32 (n : Nat) : Option Nat :=
  if n < 2 ^ 32 then some n else none

/-- Modelled from the spec: the `store!` macro (declared outside the
given sources) — schema-gated column population: the value is appended
to the column's sequence only when the column is present in the schema,
and the value expression is evaluated only in that case.  Here, one
instance per column; this is the `block_number` instance, whose value
expression `bn.as_u32()` can panic. -/
def store_block_number (schema : Table) (bn : Nat) (c : LogColumns) :
    Option LogColumns :=
  if schema.has_column "block_number" then
    (as_u32 bn).map fun v => { c with block_number := c.block_number ++ [v] }
  else some c

/-- Rust `store!(schema, columns, transaction_index, ti.as_u32())`. -/
def store_transaction_index (schema : Table) (ti : Nat) (c : LogColumns) :
    Option LogColumns :=
  if schema.has_column "transaction_index" then
    (as_u32 ti).map fun v =>
      { c with transaction_index := c.transaction_index ++ [v] }
  else some c

/-- Rust `store!(schema, columns, log_index, li.as_u32())`. -/
def store_log_index (schema : Table) (li : Nat) (c : LogColumns) :
    Option LogColumns :=
  if schema.has_column "log_index" then
    (as_u32 li).map fun v => { c with log_index := c.log_index ++ [v] }
  else some c

/-- Rust `store!(schema, columns, transaction_hash, tx.as_bytes().to_vec())`:
infallible value expression, so no `Option`. -/
def store_transaction_hash (schema : Table) (tx : List Nat)
    (c : LogColumns) : LogColumns :=
  if schema.has_column "transaction_hash" then
    { c with transaction_hash := c.transaction_hash ++ [tx] }
  else c

/-- Rust `store!(schema, columns, address, log.address.as_bytes().to_vec())`. -/
def store_address (schema : Table) (a : List Nat) (c : LogColumns) :
    LogColumns :=
  if schema.has_column "address" then { c with address := c.address ++ [a] }
  else c

/-- Rust `store!(schema, columns, data, log.data.to_vec())`. -/
def store_data (schema : Table) (d : List Nat) (c : LogColumns) :
    LogColumns :=
  if schema.has_column "data" then { c with data := c.data ++ [d] }
  else c

/-- The per-iteration topic value of the topics loop:
`if i < log.topics.len() { Some(log.topics[i].as_bytes().to_vec()) } else { None }`. -/
def topic_value (log : Log) (i : Nat) : Option (List Nat) :=
  if h : i < log.topics.length then some (log.topics.get ⟨i, h⟩) else none

/-- The `match i` in the topics loop: dispatch the slot value to
`topic0..topic3`; the default arm is `panic!("invalid number of topics")`,
modelled as `none`. -/
def store_topic (schema : Table) (c : LogColumns) (i : Nat)
    (topic : Option (List Nat)) : Option LogColumns :=
  match i with
  | 0 => some (if schema.has_column "topic0" then
      { c with topic0 := c.topic0 ++ [topic] } else c)
  | 1 => some (if schema.has_column "topic1" then
      { c with topic1 := c.topic1 ++ [topic] } else c)
  | 2 => some (if schema.has_column "topic2" then
      { c with topic2 := c.topic2 ++ [topic] } else c)
  | 3 => some (if schema.has_column "topic3" then
      { c with topic3 := c.topic3 ++ [topic] } else c)
  | _ => none

/-- The body of `process_logs`'s main loop for one raw log: the
four-field presence check, then (for a stored record) the counter
increment, the six scalar/binary stores and the `for i in 0..4` topics
loop.  A record failing the presence check leaves the accumulator
untouched. -/
def process_log (schema : Table) (c : LogColumns) (log : Log) :
    Option LogColumns :=
  match log.block_number, log.transaction_hash, log.transaction_index,
      log.log_index with
  | some bn, some tx, some ti, some li => do
    let c := { c with n_rows := c.n_rows + 1 }
    let c ← store_block_number schema bn c
    let c ← store_transaction_index schema ti c
    let c ← store_log_index schema li c
    let c := store_transaction_hash schema tx c
    let c := store_address schema log.address c
    let c := store_data schema log.data c
    ([0, 1, 2, 3] : List Nat).foldlM
      (fun c i => store_topic schema c i (topic_value log i)) c
  | _, _, _, _ => some c

/-- Rust `columns.event_cols.entry(k).or_default().extend(v)`: extend the
dynamic column named `k` with `v`, creating it (empty) first when
absent. -/
def extend_event_col (cols : List (String × List Token)) (k : String)
    (v : List Token) : List (String × List Token) :=
  if cols.any (fun p => p.1 == k) then
    cols.map fun p => if p.1 == k then (p.1, p.2 ++ v) else p
  else cols ++ [(k, v)]

/-- Rust `process_logs`: process a batch of raw logs into the columnar
accumulator — the per-record loop, then (when the schema carries a
decoder) the event-decoding pass over the entire original batch. -/
def process_logs (logs : List Log) (columns : LogColumns)
    (schema : Table) : Option LogColumns := do
  let columns ← logs.foldlM (fun c log => process_log schema c log) columns
  match schema.log_decoder with
  | some decoder =>
    pure ((decoder.parse_log_from_event logs).foldl
      (fun c kv => { c with
        event_cols := extend_event_col c.event_cols kv.1 kv.2 }) columns)
  | none => pure columns

/-- Rust `Datatype`: the entity-type enumeration (only the variants needed by
the logs dataset's transform steps). -/
inductive Datatype where
  | Logs
  | Blocks
  | Transactions
deriving DecidableEq, Repr

/-- Rust `Schemas = HashMap<Datatype, Table>`, modelled as a pair list with
`HashMap::get` as `find?`. -/
def Schemas := List (Datatype × Table)

/-- Rust `schemas.get(&Datatype::Logs)` etc. -/
def schemas_get (schemas : Schemas) (dt : Datatype) : Option Table :=
  (schemas.find? fun p => p.1 == dt).map (·.2)

/-- Rust `<Logs as CollectByBlock>::transform`: look the logs schema up
(`.expect("schema not provided")`, panic modelled as `none`) and call the
shared `process_logs`. -/
def CollectByBlock_transform (response : List Log) (columns : LogColumns)
    (schemas : Schemas) : Option LogColumns := do
  let schema ← schemas_get schemas Datatype.Logs
  process_logs response columns schema

/-- Rust `<Logs as CollectByTransaction>::transform`: same lookup and the same
shared `process_logs` call. -/
def CollectByTransaction_transform (response : List Log)
    (columns : LogColumns) (schemas : Schemas) : Option LogColumns := do
  let schema ← schemas_get schemas Datatype.Logs
  process_logs response columns schema

/-! ## Run report subsystem (`crates/freeze/src/types/reports.rs`) -/

/-- An opaque partition of extraction work (`Partition`). -/
structure Partition where
  id : Nat
deriving DecidableEq, Repr

/-- An opaque query (`Query`); the report subsystem only threads it into
the output-path collaborator. -/
structure Query where
  id : Nat

/-- Rust `FreezeSummary`: completed / errored / skipped partition accounting
for one job.  Errored entries optionally carry the failed partition. -/
structure FreezeSummary where
  completed : List Partition
  errored : List (Option Partition)
  skipped : List Partition

/-- Rust `FileOutput`: the output sink.  `get_paths` is the output-path
collaborator.  Modelled from the spec: `resolve_paths(query, partition)`
returns the mapping from table name to file path for a partition; here
the list of its path values, in the mapping's iteration order. -/
structure FileOutput where
  output_dir : String
  get_paths : Query → Partition → List String

/-- Rust `SerializedFreezeSummary`: the `results` object of a written
report. -/
structure SerializedFreezeSummary where
  completed_paths : List String
  errored_paths : List String
  n_skipped : Nat
deriving DecidableEq, Repr

/-- Rust `serialize_summary`: resolve and flatten the completed partitions'
paths, resolve and flatten paths of errored entries that carry a
partition (`filter_map` on the option), and count skipped partitions. -/
def serialize_summary (summary : FreezeSummary) (query : Query)
    (sink : FileOutput) : SerializedFreezeSummary :=
  { completed_paths :=
      (summary.completed.map fun partition =>
        sink.get_paths query partition).flatten
    errored_paths :=
      (summary.errored.filterMap fun partition_option =>
        partition_option.map fun partition =>
          sink.get_paths query partition).flatten
    n_skipped := summary.skipped.length }

/-- A job start timestamp broken into calendar fields, as far as the
report path formatter consumes it. -/
structure Timestamp where
  year : Nat
  month : Nat
  day : Nat
  hour : Nat
  minute : Nat
  second : Nat

/-- Zero-pad a number to (at least) two digits, as chrono's `%m`, `%d`,
`%H`, `%M`, `%S` do. -/
def pad2 (n : Nat) : String :=
  if n < 10 then "0" ++ toString n else toString n

/-- Zero-pad a year to (at least) four digits, as chrono's `%Y` does. -/
def pad4 (n : Nat) : String :=
  if n < 10 then "000" ++ toString n
  else if n < 100 then "00" ++ toString n
  else if n < 1000 then "0" ++ toString n
  else toString n

/-- Rust `t_start.format("%Y-%m-%d_%H-%M-%S")`. -/
def Timestamp.format (t : Timestamp) : String :=
  pad4 t.year ++ "-" ++ pad2 t.month ++ "-" ++ pad2 t.day ++ "_" ++
    pad2 t.hour ++ "-" ++ pad2 t.minute ++ "-" ++ pad2 t.second

/-- Rust `ExecutionEnv`, as far as the report subsystem consumes it. -/
structure ExecutionEnv where
  report_dir : Option String
  t_start : Timestamp
  cli_command : Option (List String)
  args : Option String

/-- Rust `get_report_path`: directory from the override or
`<output_dir>/.cryo/reports`, filename from the start timestamp with the
`incomplete_` prefix exactly when the run is not complete.  The
`create_dir_all` filesystem call (whose failure is a local IO error
independent of the inputs) is not modelled; the function returns the
computed path. -/
def get_report_path (env : ExecutionEnv) (sink : FileOutput)
    (is_complete : Bool) : String :=
  let report_dir := match env.report_dir with
    | some report_dir => report_dir
    | none => sink.output_dir ++ "/.cryo/reports"
  let timestamp := env.t_start.format
  let filename := if is_complete then timestamp ++ ".json"
    else "incomplete_" ++ (timestamp ++ ".json")
  report_dir ++ "/" ++ filename

/-- Rust `FreezeReport`: the report record that is serialized to disk. -/
structure FreezeReport where
  cryo_version : String
  cli_command : Option (List String)
  results : Option SerializedFreezeSummary
  args : Option String

/-- Rust `write_report`, up to the filesystem write: build the report record
(serializing the summary when present) and compute the report path with
`is_complete = freeze_summary.is_some()`.  Returns the record and the
path it is written to. -/
def write_report (cryo_version : String) (env : ExecutionEnv)
    (query : Query) (sink : FileOutput)
    (freeze_summary : Option FreezeSummary) : FreezeReport × String :=
  let serialized_summary := freeze_summary.map fun x =>
    serialize_summary x query sink
  let report : FreezeReport :=
    { cryo_version
      cli_command := env.cli_command
      args := env.args
      results := serialized_summary }
  (report, get_report_path env sink freeze_summary.isSome)

/-! ## Derived notions used in statements -/

/-- The fixed columns of the logs accumulator, as named by the schema
(the `store!` sites of `process_logs`). -/
def fixed_names : List String :=
  ["block_number", "transaction_index", "log_index", "transaction_hash",
   "address", "data", "topic0", "topic1", "topic2", "topic3"]

/-- Length of a fixed column of the accumulator, by column name. -/
def col_len (c : LogColumns) : String → Nat
  | "block_number" => c.block_number.length
  | "transaction_index" => c.transaction_index.length
  | "log_index" => c.log_index.length
  | "transaction_hash" => c.transaction_hash.length
  | "address" => c.address.length
  | "data" => c.data.length
  | "topic0" => c.topic0.length
  | "topic1" => c.topic1.length
  | "topic2" => c.topic2.length
  | "topic3" => c.topic3.length
  | _ => 0

/-- The column-length invariant: every fixed column present in the
schema has exactly `n_rows` entries. -/
def fixed_cols_ok (schema : Table) (c : LogColumns) : Prop :=
  ∀ name ∈ fixed_names, schema.has_column name = true →
    col_len c name = c.n_rows

instance (schema : Table) (c : LogColumns) :
    Decidable (fixed_cols_ok schema c) := by
  unfold fixed_cols_ok; infer_instance

/-- Derived description of what one stored record does to the
accumulator: the counter is incremented once and every schema-present
fixed column receives exactly one appended entry (proved equal to the
result of `process_log` on a stored record below). -/
def stored_row (schema : Table) (c : LogColumns) (log : Log) (bn : Nat)
    (tx : List Nat) (ti li : Nat) : LogColumns :=
  { c with
    n_rows := c.n_rows + 1
    block_number := c.block_number ++
      (if schema.has_column "block_number" then [bn] else [])
    transaction_index := c.transaction_index ++
      (if schema.has_column "transaction_index" then [ti] else [])
    log_index := c.log_index ++
      (if schema.has_column "log_index" then [li] else [])
    transaction_hash := c.transaction_hash ++
      (if schema.has_column "transaction_hash" then [tx] else [])
    address := c.address ++
      (if schema.has_column "address" then [log.address] else [])
    data := c.data ++
      (if schema.has_column "data" then [log.data] else [])
    topic0 := c.topic0 ++
      (if schema.has_column "topic0" then [topic_value log 0] else [])
    topic1 := c.topic1 ++
      (if schema.has_column "topic1" then [topic_value log 1] else [])
    topic2 := c.topic2 ++
      (if schema.has_column "topic2" then [topic_value log 2] else [])
    topic3 := c.topic3 ++
      (if schema.has_column "topic3" then [topic_value log 3] else []) }

/-- Contents of the dynamic (decoded event) column named `k`, when it
exists. -/
def event_col_values (cols : List (String × List Token)) (k : String) :
    Option (List Token) :=
  (cols.find? fun p => p.1 == k).map (·.2)

/-- One event-decoder merge pass over the dynamic columns: the fold of
`extend_event_col` over the decoder's output pairs. -/
def event_merge (e : List (String × List Token))
    (pairs : List (String × List Token)) : List (String × List Token) :=
  pairs.foldl (fun e kv => extend_event_col e kv.1 kv.2) e

/-- Frame property for one schema: every fixed column absent from the
schema is left with exactly the contents it had before. -/
def absent_cols_eq (schema : Table) (c c' : LogColumns) : Prop :=
  (schema.has_column "block_number" = false →
    c'.block_number = c.block_number) ∧
  (schema.has_column "transaction_index" = false →
    c'.transaction_index = c.transaction_index) ∧
  (schema.has_column "log_index" = false → c'.log_index = c.log_index) ∧
  (schema.has_column "transaction_hash" = false →
    c'.transaction_hash = c.transaction_hash) ∧
  (schema.has_column "address" = false → c'.address = c.address) ∧
  (schema.has_column "data" = false → c'.data = c.data) ∧
  (schema.has_column "topic0" = false → c'.topic0 = c.topic0) ∧
  (schema.has_column "topic1" = false → c'.topic1 = c.topic1) ∧
  (schema.has_column "topic2" = false → c'.topic2 = c.topic2) ∧
  (schema.has_column "topic3" = false → c'.topic3 = c.topic3)

/-! ## Characterization of the store steps -/

theorem store_block_number_eq_some {schema : Table} {bn : Nat}
    {c c' : LogColumns} (h : store_block_number schema bn c = some c') :
    c' = { c with block_number := c.block_number ++
      (if schema.has_column "block_number" then [bn] else []) } := by
  unfold store_block_number as_u32 at h
  split at h
  · split at h <;> simp_all
  · simp_all

theorem store_block_number_bound {schema : Table} {bn : Nat}
    {c c' : LogColumns} (h : store_block_number schema bn c = some c')
    (hcol : schema.has_column "block_number" = true) : bn < 2 ^ 32 := by
  by_contra hb
  unfold store_block_number as_u32 at h
  rw [hcol] at h
  simp at h
  exact absurd h.1 (by simpa using hb)

theorem store_block_number_isSome {schema : Table} {bn : Nat}
    {c : LogColumns}
    (h : schema.has_column "block_number" = true → bn < 2 ^ 32) :
    store_block_number schema bn c = some { c with
      block_number := c.block_number ++
        (if schema.has_column "block_number" then [bn] else []) } := by
  unfold store_block_number as_u32
  split
  · next hcol =>
    rw [if_pos (h hcol)]
    simp
  · next => simp

theorem store_transaction_index_eq_some {schema : Table} {ti : Nat}
    {c c' : LogColumns}
    (h : store_transaction_index schema ti c = some c') :
    c' = { c with transaction_index := c.transaction_index ++
      (if schema.has_column "transaction_index" then [ti] else []) } := by
  unfold store_transaction_index as_u32 at h
  split at h
  · split at h <;> simp_all
  · simp_all

theorem store_transaction_index_bound {schema : Table} {ti : Nat}
    {c c' : LogColumns}
    (h : store_transaction_index schema ti c = some c')
    (hcol : schema.has_column "transaction_index" = true) :
    ti < 2 ^ 32 := by
  by_contra hb
  unfold store_transaction_index as_u32 at h
  rw [hcol] at h
  simp at h
  exact absurd h.1 (by simpa using hb)

theorem store_transaction_index_isSome {schema : Table} {ti : Nat}
    {c : LogColumns}
    (h : schema.has_column "transaction_index" = true → ti < 2 ^ 32) :
    store_transaction_index schema ti c = some { c with
      transaction_index := c.transaction_index ++
        (if schema.has_column "transaction_index" then [ti] else []) } := by
  unfold store_transaction_index as_u32
  split
  · next hcol =>
    rw [if_pos (h hcol)]
    simp
  · next => simp

theorem store_log_index_eq_some {schema : Table} {li : Nat}
    {c c' : LogColumns} (h : store_log_index schema li c = some c') :
    c' = { c with log_index := c.log_index ++
      (if schema.has_column "log_index" then [li] else []) } := by
  unfold store_log_index as_u32 at h
  split at h
  · split at h <;> simp_all
  · simp_all

theorem store_log_index_bound {schema : Table} {li : Nat}
    {c c' : LogColumns} (h : store_log_index schema li c = some c')
    (hcol : schema.has_column "log_index" = true) : li < 2 ^ 32 := by
  by_contra hb
  unfold store_log_index as_u32 at h
  rw [hcol] at h
  simp at h
  exact absurd h.1 (by simpa using hb)

theorem store_log_index_isSome {schema : Table} {li : Nat}
    {c : LogColumns}
    (h : schema.has_column "log_index" = true → li < 2 ^ 32) :
    store_log_index schema li c = some { c with
      log_index := c.log_index ++
        (if schema.has_column "log_index" then [li] else []) } := by
  unfold store_log_index as_u32
  split
  · next hcol =>
    rw [if_pos (h hcol)]
    simp
  · next => simp

theorem store_transaction_hash_eq {schema : Table} {tx : List Nat}
    {c : LogColumns} :
    store_transaction_hash schema tx c = { c with
      transaction_hash := c.transaction_hash ++
        (if schema.has_column "transaction_hash" then [tx] else []) } := by
  unfold store_transaction_hash
  split <;> simp_all

theorem store_address_eq {schema : Table} {a : List Nat}
    {c : LogColumns} :
    store_address schema a c = { c with
      address := c.address ++
        (if schema.has_column "address" then [a] else []) } := by
  unfold store_address
  split <;> simp_all

theorem store_data_eq {schema : Table} {d : List Nat} {c : LogColumns} :
    store_data schema d c = { c with
      data := c.data ++
        (if schema.has_column "data" then [d] else []) } := by
  unfold store_data
  split <;> simp_all

theorem store_topic_zero {schema : Table} {c : LogColumns}
    {t : Option (List Nat)} :
    store_topic schema c 0 t = some { c with
      topic0 := c.topic0 ++
        (if schema.has_column "topic0" then [t] else []) } := by
  simp only [store_topic]
  split <;> simp

theorem store_topic_one {schema : Table} {c : LogColumns}
    {t : Option (List Nat)} :
    store_topic schema c 1 t = some { c with
      topic1 := c.topic1 ++
        (if schema.has_column "topic1" then [t] else []) } := by
  simp only [store_topic]
  split <;> simp

theorem store_topic_two {schema : Table} {c : LogColumns}
    {t : Option (List Nat)} :
    store_topic schema c 2 t = some { c with
      topic2 := c.topic2 ++
        (if schema.has_column "topic2" then [t] else []) } := by
  simp only [store_topic]
  split <;> simp

theorem store_topic_three {schema : Table} {c : LogColumns}
    {t : Option (List Nat)} :
    store_topic schema c 3 t = some { c with
      topic3 := c.topic3 ++
        (if schema.has_column "topic3" then [t] else []) } := by
  simp only [store_topic]
  split <;> simp

theorem topics_foldlM_eq {schema : Table} {log : Log} {c : LogColumns} :
    (([0, 1, 2, 3] : List Nat).foldlM
        (fun c i => store_topic schema c i (topic_value log i)) c) =
      some { c with
        topic0 := c.topic0 ++
          (if schema.has_column "topic0" then [topic_value log 0] else [])
        topic1 := c.topic1 ++
          (if schema.has_column "topic1" then [topic_value log 1] else [])
        topic2 := c.topic2 ++
          (if schema.has_column "topic2" then [topic_value log 2] else [])
        topic3 := c.topic3 ++
          (if schema.has_column "topic3" then [topic_value log 3] else []) }
    := by
  simp [List.foldlM, store_topic_zero, store_topic_one, store_topic_two,
    store_topic_three]

/-! ## Characterization of one record's processing -/

theorem process_log_skips {schema : Table} {c : LogColumns} {log : Log}
    (h : log.block_number = none ∨ log.transaction_hash = none ∨
      log.transaction_index = none ∨ log.log_index = none) :
    process_log schema c log = some c := by
  unfold process_log
  rcases hbn : log.block_number with _ | bn <;>
    rcases htx : log.transaction_hash with _ | tx <;>
      rcases hti : log.transaction_index with _ | ti <;>
        rcases hli : log.log_index with _ | li <;>
          simp_all

theorem process_log_stores {schema : Table} {c : LogColumns} {log : Log}
    {bn : Nat} {tx : List Nat} {ti li : Nat}
    (hbn : log.block_number = some bn)
    (htx : log.transaction_hash = some tx)
    (hti : log.transaction_index = some ti)
    (hli : log.log_index = some li)
    (h1 : schema.has_column "block_number" = true → bn < 2 ^ 32)
    (h2 : schema.has_column "transaction_index" = true → ti < 2 ^ 32)
    (h3 : schema.has_column "log_index" = true → li < 2 ^ 32) :
    process_log schema c log =
      some (stored_row schema c log bn tx ti li) := by
  unfold process_log
  rw [hbn, htx, hti, hli]
  simp only [Option.bind_eq_bind, store_block_number_isSome h1,
    Option.some_bind, store_transaction_index_isSome h2,
    store_log_index_isSome h3, store_transaction_hash_eq,
    store_address_eq, store_data_eq, topics_foldlM_eq, stored_row]

theorem process_log_eq_some_inv {schema : Table} {c c' : LogColumns}
    {log : Log} (h : process_log schema c log = some c') :
    ((log.block_number = none ∨ log.transaction_hash = none ∨
        log.transaction_index = none ∨ log.log_index = none) ∧ c' = c) ∨
      ∃ bn tx ti li, log.block_number = some bn ∧
        log.transaction_hash = some tx ∧
        log.transaction_index = some ti ∧ log.log_index = some li ∧
        (schema.has_column "block_number" = true → bn < 2 ^ 32) ∧
        (schema.has_column "transaction_index" = true → ti < 2 ^ 32) ∧
        (schema.has_column "log_index" = true → li < 2 ^ 32) ∧
        c' = stored_row schema c log bn tx ti li := by
  rcases hbn : log.block_number with _ | bn
  · rw [process_log_skips (Or.inl hbn)] at h
    left
    exact ⟨Or.inl rfl, (Option.some_inj.mp h).symm⟩
  rcases htx : log.transaction_hash with _ | tx
  · rw [process_log_skips (Or.inr (Or.inl htx))] at h
    left
    exact ⟨Or.inr (Or.inl rfl), (Option.some_inj.mp h).symm⟩
  rcases hti : log.transaction_index with _ | ti
  · rw [process_log_skips (Or.inr (Or.inr (Or.inl hti)))] at h
    left
    exact ⟨Or.inr (Or.inr (Or.inl rfl)), (Option.some_inj.mp h).symm⟩
  rcases hli : log.log_index with _ | li
  · rw [process_log_skips (Or.inr (Or.inr (Or.inr hli)))] at h
    left
    exact ⟨Or.inr (Or.inr (Or.inr rfl)), (Option.some_inj.mp h).symm⟩
  right
  unfold process_log at h
  rw [hbn, htx, hti, hli] at h
  simp only [Option.bind_eq_bind] at h
  rw [Option.bind_eq_some] at h
  obtain ⟨c1, hc1, h⟩ := h
  rw [Option.bind_eq_some] at h
  obtain ⟨c2, hc2, h⟩ := h
  rw [Option.bind_eq_some] at h
  obtain ⟨c3, hc3, h⟩ := h
  refine ⟨bn, tx, ti, li, rfl, rfl, rfl, rfl,
    fun hcol => store_block_number_bound hc1 hcol,
    fun hcol => store_transaction_index_bound hc2 hcol,
    fun hcol => store_log_index_bound hc3 hcol, ?_⟩
  have e1 := store_block_number_eq_some hc1
  subst e1
  have e2 := store_transaction_index_eq_some hc2
  subst e2
  have e3 := store_log_index_eq_some hc3
  subst e3
  rw [store_transaction_hash_eq, store_address_eq, store_data_eq,
    topics_foldlM_eq] at h
  rw [← Option.some_inj.mp h]
  rfl

/-! ## Batch-level lemmas -/

theorem stored_row_n_rows {schema : Table} {c : LogColumns} {log : Log}
    {bn : Nat} {tx : List Nat} {ti li : Nat} :
    (stored_row schema c log bn tx ti li).n_rows = c.n_rows + 1 := rfl

theorem stored_row_event_cols {schema : Table} {c : LogColumns}
    {log : Log} {bn : Nat} {tx : List Nat} {ti li : Nat} :
    (stored_row schema c log bn tx ti li).event_cols = c.event_cols := rfl

theorem col_len_stored_row_has {schema : Table} {c : LogColumns}
    {log : Log} {bn : Nat} {tx : List Nat} {ti li : Nat} {name : String}
    (hname : name ∈ fixed_names)
    (hhas : schema.has_column name = true) :
    col_len (stored_row schema c log bn tx ti li) name =
      col_len c name + 1 := by
  fin_cases hname <;> simp_all [stored_row, col_len]

theorem fixed_cols_ok_process_log {schema : Table} {c c' : LogColumns}
    {log : Log} (h : process_log schema c log = some c')
    (hok : fixed_cols_ok schema c) : fixed_cols_ok schema c' := by
  rcases process_log_eq_some_inv h with ⟨_, rfl⟩ |
    ⟨bn, tx, ti, li, _, _, _, _, _, _, _, rfl⟩
  · exact hok
  · intro name hname hhas
    rw [col_len_stored_row_has hname hhas, hok name hname hhas]
    rfl

theorem process_log_event_cols {schema : Table} {c c' : LogColumns}
    {log : Log} (h : process_log schema c log = some c') :
    c'.event_cols = c.event_cols := by
  rcases process_log_eq_some_inv h with ⟨_, rfl⟩ |
    ⟨bn, tx, ti, li, _, _, _, _, _, _, _, rfl⟩ <;> rfl

theorem fixed_cols_ok_foldlM {schema : Table} {logs : List Log} :
    ∀ {c c' : LogColumns},
      logs.foldlM (fun c log => process_log schema c log) c = some c' →
      fixed_cols_ok schema c → fixed_cols_ok schema c' := by
  induction logs with
  | nil =>
    intro c c' h hok
    simp only [List.foldlM_nil] at h
    cases h
    exact hok
  | cons log logs ih =>
    intro c c' h hok
    rw [List.foldlM_cons] at h
    simp only [Option.bind_eq_bind] at h
    rw [Option.bind_eq_some] at h
    obtain ⟨c1, h1, h2⟩ := h
    exact ih h2 (fixed_cols_ok_process_log h1 hok)

theorem foldlM_event_cols {schema : Table} {logs : List Log} :
    ∀ {c c' : LogColumns},
      logs.foldlM (fun c log => process_log schema c log) c = some c' →
      c'.event_cols = c.event_cols := by
  induction logs with
  | nil =>
    intro c c' h
    simp only [List.foldlM_nil] at h
    cases h
    rfl
  | cons log logs ih =>
    intro c c' h
    rw [List.foldlM_cons] at h
    simp only [Option.bind_eq_bind] at h
    rw [Option.bind_eq_some] at h
    obtain ⟨c1, h1, h2⟩ := h
    rw [ih h2, process_log_event_cols h1]

theorem event_foldl_eq (pairs : List (String × List Token)) :
    ∀ c : LogColumns,
      pairs.foldl (fun c kv => { c with
        event_cols := extend_event_col c.event_cols kv.1 kv.2 }) c =
      { c with event_cols := event_merge c.event_cols pairs } := by
  induction pairs with
  | nil => intro c; rfl
  | cons kv pairs ih =>
    intro c
    rw [List.foldl_cons, ih]
    rfl

theorem process_logs_none_decoder {schema : Table} {logs : List Log}
    {c : LogColumns} (hd : schema.log_decoder = none) :
    process_logs logs c schema =
      logs.foldlM (fun c log => process_log schema c log) c := by
  unfold process_logs
  rw [hd]
  rcases logs.foldlM (fun c log => process_log schema c log) c with _ | c1
    <;> rfl

theorem process_logs_some_decoder {schema : Table} {logs : List Log}
    {c : LogColumns} {d : LogDecoder} (hd : schema.log_decoder = some d) :
    process_logs logs c schema =
      (logs.foldlM (fun c log => process_log schema c log) c).map
        (fun c1 => { c1 with
          event_cols :=
            event_merge c1.event_cols (d.parse_log_from_event logs) }) := by
  unfold process_logs
  rw [hd]
  rcases logs.foldlM (fun c log => process_log schema c log) c with _ | c1
  · rfl
  · show some _ = some _
    rw [event_foldl_eq]

/-! ## Dynamic (event) column lemmas -/

theorem extend_event_col_cons_ne {p : String × List Token}
    {cols : List (String × List Token)} {k : String} {v : List Token}
    (h : (p.1 == k) = false) :
    extend_event_col (p :: cols) k v = p :: extend_event_col cols k v := by
  have h2 : ¬ p.1 = k := by simpa using h
  unfold extend_event_col
  simp only [List.any_cons, h, Bool.false_or]
  by_cases ha : cols.any (fun q => q.1 == k) = true
  · simp [ha, h, h2]
  · simp [ha, h, h2]

theorem event_col_values_extend (cols : List (String × List Token))
    (k : String) (v : List Token) :
    event_col_values (extend_event_col cols k v) k =
      some ((event_col_values cols k).getD [] ++ v) := by
  induction cols with
  | nil => simp [extend_event_col, event_col_values, List.find?]
  | cons p cols ih =>
    by_cases h : (p.1 == k) = true
    · unfold extend_event_col
      simp only [List.any_cons, h, Bool.true_or, if_true]
      simp [event_col_values, List.find?, h]
    · have hb : (p.1 == k) = false := by simpa using h
      rw [extend_event_col_cons_ne hb]
      simpa [event_col_values, List.find?, hb] using ih

/-! ## Topic-slot lemmas -/

theorem topic_value_eq_get? (log : Log) (i : Nat) :
    topic_value log i = log.topics.get? i := by
  unfold topic_value
  split
  · next h => exact (List.get?_eq_get h).symm
  · next h => exact (List.get?_eq_none.mpr (le_of_not_lt h)).symm

theorem topic_value_isSome (log : Log) (i : Nat) :
    (topic_value log i).isSome = true ↔ i < log.topics.length := by
  unfold topic_value
  split <;> simp [*]

theorem topic_value_take (log : Log) (i : Nat) (h : i < 4) :
    topic_value { log with topics := log.topics.take 4 } i =
      topic_value log i := by
  rw [topic_value_eq_get?, topic_value_eq_get?]
  exact List.get?_take h

/-! ## Remaining batch helpers -/

theorem foldlM_skips {schema : Table} {c : LogColumns} :
    ∀ logs : List Log,
      (∀ l ∈ logs, l.block_number = none ∨ l.transaction_hash = none ∨
        l.transaction_index = none ∨ l.log_index = none) →
      logs.foldlM (fun c log => process_log schema c log) c = some c
  | [], _ => rfl
  | l :: ls, hall => by
    rw [List.foldlM_cons,
      process_log_skips (hall l (List.mem_cons_self l ls))]
    simp only [Option.bind_eq_bind, Option.some_bind]
    exact foldlM_skips ls fun x hx => hall x (List.mem_cons_of_mem l hx)

theorem process_log_isSome {schema : Table} {c : LogColumns} {log : Log}
    (h1 : ∀ bn, log.block_number = some bn → bn < 2 ^ 32)
    (h2 : ∀ ti, log.transaction_index = some ti → ti < 2 ^ 32)
    (h3 : ∀ li, log.log_index = some li → li < 2 ^ 32) :
    (process_log schema c log).isSome = true := by
  rcases hbn : log.block_number with _ | bn
  · rw [process_log_skips (Or.inl hbn)]; rfl
  rcases htx : log.transaction_hash with _ | tx
  · rw [process_log_skips (Or.inr (Or.inl htx))]; rfl
  rcases hti : log.transaction_index with _ | ti
  · rw [process_log_skips (Or.inr (Or.inr (Or.inl hti)))]; rfl
  rcases hli : log.log_index with _ | li
  · rw [process_log_skips (Or.inr (Or.inr (Or.inr hli)))]; rfl
  rw [process_log_stores hbn htx hti hli (fun _ => h1 bn hbn)
    (fun _ => h2 ti hti) (fun _ => h3 li hli)]
  rfl

theorem foldlM_isSome {schema : Table} :
    ∀ (logs : List Log) (c : LogColumns),
      (∀ log ∈ logs,
        (∀ bn, log.block_number = some bn → bn < 2 ^ 32) ∧
        (∀ ti, log.transaction_index = some ti → ti < 2 ^ 32) ∧
        (∀ li, log.log_index = some li → li < 2 ^ 32)) →
      (logs.foldlM (fun c log => process_log schema c log) c).isSome = true
  | [], c, _ => rfl
  | l :: ls, c, hall => by
    rw [List.foldlM_cons]
    obtain ⟨h1, h2, h3⟩ := hall l (List.mem_cons_self l ls)
    obtain ⟨c1, hc1⟩ :=
      Option.isSome_iff_exists.mp (@process_log_isSome schema c l h1 h2 h3)
    rw [hc1]
    simp only [Option.bind_eq_bind, Option.some_bind]
    exact foldlM_isSome ls c1 fun x hx => hall x (List.mem_cons_of_mem l hx)

theorem col_len_event_cols_update {c : LogColumns}
    {x : List (String × List Token)} (name : String) :
    col_len { c with event_cols := x } name = col_len c name := by
  unfold col_len
  split <;> rfl

/-! ## Claims -/

/-- C2: a raw log record missing any of block number, transaction hash,
transaction index, or log index is silently dropped: `process_log`
returns the accumulator unchanged (a `some`, so no error and no panic),
leaving `n_rows` and every column exactly as they were; and a whole
batch consisting only of such records (under a schema with no decoder)
leaves the accumulator unchanged. -/
theorem claim_C2_missing_field_dropped (schema : Table) (c : LogColumns)
    (log : Log)
    (h : log.block_number = none ∨ log.transaction_hash = none ∨
      log.transaction_index = none ∨ log.log_index = none) :
    process_log schema c log = some c ∧
    ∀ logs : List Log,
      (∀ l ∈ logs, l.block_number = none ∨ l.transaction_hash = none ∨
        l.transaction_index = none ∨ l.log_index = none) →
      schema.log_decoder = none → process_logs logs c schema = some c := by
  refine ⟨process_log_skips h, fun logs hall hd => ?_⟩
  rw [process_logs_none_decoder hd]
  exact foldlM_skips logs hall

/-- C2 witness: a concrete record with a missing transaction hash is
dropped without touching the accumulator. -/
theorem claim_C2_witness :
    process_log (Table.mk ["block_number"] none) LogColumns.default
      (Log.mk [1] [] [2] (some 7) none (some 0) (some 0)) =
      some LogColumns.default :=
  (claim_C2_missing_field_dropped (Table.mk ["block_number"] none)
    LogColumns.default
    (Log.mk [1] [] [2] (some 7) none (some 0) (some 0))
    (Or.inr (Or.inl rfl))).1

/-- C10: both extraction strategies' transform steps look the logs
schema up in the schemas map: when a `Logs` entry is present, each
transform equals the shared `process_logs` call on that schema (no panic
at the lookup); when it is absent, each transform panics
(`expect("schema not provided")`, modelled as `none`). -/
theorem claim_C10_transform_schema_lookup (response : List Log)
    (columns : LogColumns) (schemas : Schemas) :
    (∀ schema : Table, schemas_get schemas Datatype.Logs = some schema →
      CollectByBlock_transform response columns schemas =
        process_logs response columns schema ∧
      CollectByTransaction_transform response columns schemas =
        process_logs response columns schema) ∧
    (schemas_get schemas Datatype.Logs = none →
      CollectByBlock_transform response columns schemas = none ∧
      CollectByTransaction_transform response columns schemas = none) := by
  constructor
  · intro schema hs
    unfold CollectByBlock_transform CollectByTransaction_transform
    rw [hs]
    exact ⟨rfl, rfl⟩
  · intro hs
    unfold CollectByBlock_transform CollectByTransaction_transform
    rw [hs]
    exact ⟨rfl, rfl⟩

/-- C10 witness: with a `Logs` entry present the by-block transform is
the shared `process_logs` call; with the entry absent it panics. -/
theorem claim_C10_witness :
    CollectByBlock_transform [] LogColumns.default
        [(Datatype.Logs, Table.mk [] none)] =
      process_logs [] LogColumns.default (Table.mk [] none) ∧
    CollectByBlock_transform [] LogColumns.default [] = none :=
  ⟨((claim_C10_transform_schema_lookup [] LogColumns.default
      [(Datatype.Logs, Table.mk [] none)]).1 (Table.mk [] none) rfl).1,
    ((claim_C10_transform_schema_lookup [] LogColumns.default []).2
      rfl).1⟩

/-- C4 counterexample: the claim says numeric identifying fields are
reduced modulo `2 ^ 32` for all input values; but on a record whose
block number is `2 ^ 32` (with `block_number` requested) the code calls
the overflow-checking `as_u32`, which panics — `process_logs` produces
no accumulator at all rather than storing `0`. -/
theorem claim_C4_counterexample :
    process_logs
      [Log.mk [] [] [] (some (2 ^ 32)) (some []) (some 0) (some 0)]
      LogColumns.default (Table.mk ["block_number"] none) = none := by
  decide

/-- C4 (amended): for every stored record whose block number,
transaction index, and log index fit in 32 bits, the values appended to
the schema-present numeric columns equal the record's values reduced
modulo `2 ^ 32` (the reduction is the identity in range); out-of-range
values instead panic in the overflow-checking conversion. -/
theorem claim_C4_numeric_narrowing (schema : Table) (c : LogColumns)
    (log : Log) (bn : Nat) (tx : List Nat) (ti li : Nat)
    (hbn : log.block_number = some bn)
    (htx : log.transaction_hash = some tx)
    (hti : log.transaction_index = some ti)
    (hli : log.log_index = some li)
    (h1 : bn < 2 ^ 32) (h2 : ti < 2 ^ 32) (h3 : li < 2 ^ 32) :
    ∃ c', process_log schema c log = some c' ∧
      c'.block_number = c.block_number ++
        (if schema.has_column "block_number" then [bn % 2 ^ 32] else []) ∧
      c'.transaction_index = c.transaction_index ++
        (if schema.has_column "transaction_index" then [ti % 2 ^ 32]
          else []) ∧
      c'.log_index = c.log_index ++
        (if schema.has_column "log_index" then [li % 2 ^ 32] else []) := by
  refine ⟨stored_row schema c log bn tx ti li,
    process_log_stores hbn htx hti hli (fun _ => h1) (fun _ => h2)
      (fun _ => h3), ?_, ?_, ?_⟩
  · rw [Nat.mod_eq_of_lt h1]; rfl
  · rw [Nat.mod_eq_of_lt h2]; rfl
  · rw [Nat.mod_eq_of_lt h3]; rfl

/-- C4 witness: an in-range record is stored with its values intact. -/
theorem claim_C4_witness :
    ∃ c', process_log (Table.mk ["block_number"] none) LogColumns.default
        (Log.mk [] [] [] (some 5) (some [1]) (some 6) (some 7)) =
        some c' ∧
      c'.block_number = [] ++
        (if (Table.mk ["block_number"] none).has_column "block_number"
          then [5 % 2 ^ 32] else []) ∧
      c'.transaction_index = [] ++
        (if (Table.mk ["block_number"] none).has_column
          "transaction_index" then [6 % 2 ^ 32] else []) ∧
      c'.log_index = [] ++
        (if (Table.mk ["block_number"] none).has_column "log_index"
          then [7 % 2 ^ 32] else []) :=
  claim_C4_numeric_narrowing (Table.mk ["block_number"] none)
    LogColumns.default (Log.mk [] [] [] (some 5) (some [1]) (some 6)
      (some 7)) 5 [1] 6 7 rfl rfl rfl rfl (by decide) (by decide)
    (by decide)

/-- C9 counterexample: the claim says `process_logs` cannot panic
regardless of field values; but a record whose transaction index is
`2 ^ 32` (with `transaction_index` requested) panics in the
overflow-checking `as_u32` conversion. -/
theorem claim_C9_counterexample :
    process_logs
      [Log.mk [] [] [] (some 0) (some []) (some (2 ^ 32)) (some 0)]
      LogColumns.default (Table.mk ["transaction_index"] none) =
      none := by
  decide

/-- C9 (amended): the internal-invariant panic of the topic dispatch
(`panic!("invalid number of topics")`) is unreachable — every slot index
the loop addresses (`i < 4`) succeeds for every accumulator and topic
value; and `process_logs` completes without panicking on every batch
whose present numeric fields fit in 32 bits.  (Out-of-range numeric
values can still panic via the overflow-checking narrowing, which is
what the counterexample exhibits.) -/
theorem claim_C9_no_panic (schema : Table) (logs : List Log)
    (c : LogColumns)
    (h : ∀ log ∈ logs,
      (∀ bn, log.block_number = some bn → bn < 2 ^ 32) ∧
      (∀ ti, log.transaction_index = some ti → ti < 2 ^ 32) ∧
      (∀ li, log.log_index = some li → li < 2 ^ 32)) :
    (process_logs logs c schema).isSome = true ∧
    ∀ (i : Nat) (d : LogColumns) (t : Option (List Nat)), i < 4 →
      (store_topic schema d i t).isSome = true := by
  constructor
  · have hf := @foldlM_isSome schema logs c h
    obtain ⟨c1, hc1⟩ := Option.isSome_iff_exists.mp hf
    rcases hd : schema.log_decoder with _ | d
    · rw [process_logs_none_decoder hd, hc1]; rfl
    · rw [process_logs_some_decoder hd, hc1]; rfl
  · intro i d t hi
    rcases i with _ | _ | _ | _ | i
    · rw [store_topic_zero]; rfl
    · rw [store_topic_one]; rfl
    · rw [store_topic_two]; rfl
    · rw [store_topic_three]; rfl
    · omega

/-- C9 witness: a concrete in-range batch is processed without panic,
and slot index 3 is accepted by the topic dispatch. -/
theorem claim_C9_witness :
    (process_logs [Log.mk [] [[1]] [] (some 1) (some [2]) (some 3)
        (some 4)] LogColumns.default
        (Table.mk ["block_number", "topic0"] none)).isSome = true ∧
    (store_topic (Table.mk ["block_number", "topic0"] none)
        LogColumns.default 3 none).isSome = true := by
  have hmain := claim_C9_no_panic (Table.mk ["block_number", "topic0"]
    none) [Log.mk [] [[1]] [] (some 1) (some [2]) (some 3) (some 4)]
    LogColumns.default (by decide)
  exact ⟨hmain.1, hmain.2 3 LogColumns.default none (by decide)⟩

/-! ## Frame lemmas for absent columns -/

theorem absent_cols_eq_refl {schema : Table} {c : LogColumns} :
    absent_cols_eq schema c c :=
  ⟨fun _ => rfl, fun _ => rfl, fun _ => rfl, fun _ => rfl, fun _ => rfl,
    fun _ => rfl, fun _ => rfl, fun _ => rfl, fun _ => rfl, fun _ => rfl⟩

theorem absent_cols_eq_trans {schema : Table} {a b c : LogColumns}
    (h1 : absent_cols_eq schema a b) (h2 : absent_cols_eq schema b c) :
    absent_cols_eq schema a c := by
  obtain ⟨a1, a2, a3, a4, a5, a6, a7, a8, a9, a10⟩ := h1
  obtain ⟨b1, b2, b3, b4, b5, b6, b7, b8, b9, b10⟩ := h2
  exact ⟨fun hf => (b1 hf).trans (a1 hf), fun hf => (b2 hf).trans (a2 hf),
    fun hf => (b3 hf).trans (a3 hf), fun hf => (b4 hf).trans (a4 hf),
    fun hf => (b5 hf).trans (a5 hf), fun hf => (b6 hf).trans (a6 hf),
    fun hf => (b7 hf).trans (a7 hf), fun hf => (b8 hf).trans (a8 hf),
    fun hf => (b9 hf).trans (a9 hf), fun hf => (b10 hf).trans (a10 hf)⟩

theorem absent_cols_eq_process_log {schema : Table} {c c' : LogColumns}
    {log : Log} (h : process_log schema c log = some c') :
    absent_cols_eq schema c c' := by
  rcases process_log_eq_some_inv h with ⟨_, rfl⟩ |
    ⟨bn, tx, ti, li, _, _, _, _, _, _, _, rfl⟩
  · exact absent_cols_eq_refl
  · refine ⟨fun hf => ?_, fun hf => ?_, fun hf => ?_, fun hf => ?_,
      fun hf => ?_, fun hf => ?_, fun hf => ?_, fun hf => ?_,
      fun hf => ?_, fun hf => ?_⟩ <;> simp [stored_row, hf]

theorem absent_cols_eq_foldlM {schema : Table} {logs : List Log} :
    ∀ {c c' : LogColumns},
      logs.foldlM (fun c log => process_log schema c log) c = some c' →
      absent_cols_eq schema c c' := by
  induction logs with
  | nil =>
    intro c c' h
    simp only [List.foldlM_nil] at h
    cases h
    exact absent_cols_eq_refl
  | cons log logs ih =>
    intro c c' h
    rw [List.foldlM_cons] at h
    simp only [Option.bind_eq_bind] at h
    rw [Option.bind_eq_some] at h
    obtain ⟨c1, h1, h2⟩ := h
    exact absent_cols_eq_trans (absent_cols_eq_process_log h1) (ih h2)

theorem absent_cols_eq_process_logs {schema : Table} {logs : List Log}
    {c c' : LogColumns} (h : process_logs logs c schema = some c') :
    absent_cols_eq schema c c' := by
  rcases hd : schema.log_decoder with _ | d
  · rw [process_logs_none_decoder hd] at h
    exact absent_cols_eq_foldlM h
  · rw [process_logs_some_decoder hd] at h
    rw [Option.map_eq_some'] at h
    obtain ⟨c1, h1, rfl⟩ := h
    obtain ⟨a1, a2, a3, a4, a5, a6, a7, a8, a9, a10⟩ :=
      absent_cols_eq_foldlM h1
    exact ⟨a1, a2, a3, a4, a5, a6, a7, a8, a9, a10⟩

/-- Shared helper: with a decoder present, the dynamic columns after a
batch are the merge of the decoder's output for the whole batch into the
starting dynamic columns. -/
theorem process_logs_event_merge {schema : Table} {d : LogDecoder}
    {logs : List Log} {c c' : LogColumns}
    (hd : schema.log_decoder = some d)
    (h : process_logs logs c schema = some c') :
    c'.event_cols = event_merge c.event_cols (d.parse_log_from_event logs)
    := by
  rw [process_logs_some_decoder hd] at h
  rw [Option.map_eq_some'] at h
  obtain ⟨c1, h1, rfl⟩ := h
  show event_merge c1.event_cols _ = event_merge c.event_cols _
  rw [foldlM_event_cols h1]

/-- C1: row-unit accumulation — starting from an accumulator in which
every schema-present fixed column has exactly `n_rows` entries,
`process_logs` preserves that invariant; and one record either leaves
the accumulator exactly unchanged or increments `n_rows` once while
appending exactly one entry to every schema-present fixed column. -/
theorem claim_C1_fixed_cols_row_unit (schema : Table) (logs : List Log)
    (c c' : LogColumns) (hok : fixed_cols_ok schema c)
    (h : process_logs logs c schema = some c') :
    fixed_cols_ok schema c' ∧
    ∀ (d d' : LogColumns) (log : Log),
      process_log schema d log = some d' →
      d' = d ∨ (d'.n_rows = d.n_rows + 1 ∧
        ∀ name ∈ fixed_names, schema.has_column name = true →
          col_len d' name = col_len d name + 1) := by
  constructor
  · rcases hd : schema.log_decoder with _ | dec
    · rw [process_logs_none_decoder hd] at h
      exact fixed_cols_ok_foldlM h hok
    · rw [process_logs_some_decoder hd] at h
      rw [Option.map_eq_some'] at h
      obtain ⟨c1, h1, rfl⟩ := h
      intro name hname hhas
      rw [col_len_event_cols_update name]
      exact fixed_cols_ok_foldlM h1 hok name hname hhas
  · intro d d' log hstep
    rcases process_log_eq_some_inv hstep with ⟨_, rfl⟩ |
      ⟨bn, tx, ti, li, _, _, _, _, _, _, _, rfl⟩
    · exact Or.inl rfl
    · exact Or.inr ⟨stored_row_n_rows,
        fun name hname hhas => col_len_stored_row_has hname hhas⟩

/-- C1 witness: a concrete one-record batch preserves the
column-length invariant. -/
theorem claim_C1_witness :
    fixed_cols_ok (Table.mk ["block_number", "topic1"] none)
        LogColumns.default ∧
    process_logs
        [Log.mk [2] [] [3] (some 5) (some [1]) (some 0) (some 7)]
        LogColumns.default (Table.mk ["block_number", "topic1"] none) =
      some (LogColumns.mk 1 [5] [] [] [] [] [] [none] [] [] [] []) ∧
    fixed_cols_ok (Table.mk ["block_number", "topic1"] none)
      (LogColumns.mk 1 [5] [] [] [] [] [] [none] [] [] [] []) :=
  ⟨by decide, by decide,
    (claim_C1_fixed_cols_row_unit (Table.mk ["block_number", "topic1"]
        none)
      [Log.mk [2] [] [3] (some 5) (some [1]) (some 0) (some 7)]
      LogColumns.default
      (LogColumns.mk 1 [5] [] [] [] [] [] [none] [] [] [] [])
      (by decide) (by decide)).1⟩

/-- C3: topic slots — a stored record appends to each schema-present
topic slot `i` exactly the slot value `topic_value log i`, which is
present (`some`) for slots below the record's topic count and an
explicit `none` marker from the topic count up; and for slots `i < 4`
the slot value of the record truncated to its first four topics is
identical to that of the original record. -/
theorem claim_C3_topic_slots (schema : Table) (c c' : LogColumns)
    (log : Log) (h : process_log schema c log = some c')
    (hb : log.block_number.isSome = true)
    (ht : log.transaction_hash.isSome = true)
    (hi : log.transaction_index.isSome = true)
    (hl : log.log_index.isSome = true) :
    (c'.topic0 = c.topic0 ++
      (if schema.has_column "topic0" then [topic_value log 0] else [])) ∧
    (c'.topic1 = c.topic1 ++
      (if schema.has_column "topic1" then [topic_value log 1] else [])) ∧
    (c'.topic2 = c.topic2 ++
      (if schema.has_column "topic2" then [topic_value log 2] else [])) ∧
    (c'.topic3 = c.topic3 ++
      (if schema.has_column "topic3" then [topic_value log 3] else [])) ∧
    (∀ i : Nat, i < log.topics.length →
      topic_value log i = some (log.topics.getD i [])) ∧
    (∀ i : Nat, log.topics.length ≤ i → topic_value log i = none) ∧
    (∀ i : Nat, i < 4 →
      topic_value { log with topics := log.topics.take 4 } i =
        topic_value log i) := by
  rcases process_log_eq_some_inv h with ⟨hmiss, rfl⟩ |
    ⟨bn, tx, ti, li, _, _, _, _, _, _, _, rfl⟩
  · rcases hmiss with hm | hm | hm | hm <;> simp [hm] at hb ht hi hl
  · refine ⟨rfl, rfl, rfl, rfl, fun i hlen => ?_, fun i hlen => ?_,
      fun i hi4 => topic_value_take log i hi4⟩
    · rw [topic_value_eq_get?, List.get?_eq_get hlen,
        List.getD_eq_get?, List.get?_eq_get hlen]
      rfl
    · unfold topic_value
      rw [dif_neg (not_lt_of_le hlen)]

/-- C3 witness: a record with two topics yields present values in slots
0 and 1 and absent markers in slots 2 and 3. -/
theorem claim_C3_witness :
    process_log (Table.mk ["topic0", "topic1", "topic2", "topic3"] none)
        LogColumns.default
        (Log.mk [] [[7], [8]] [] (some 1) (some []) (some 2) (some 3)) =
      some (LogColumns.mk 1 [] [] [] [] [] [some [7]] [some [8]] [none]
        [none] [] []) ∧
    (LogColumns.mk 1 [] [] [] [] [] [some [7]] [some [8]] [none] [none]
        [] []).topic2 = [] ++
      (if (Table.mk ["topic0", "topic1", "topic2", "topic3"]
          none).has_column "topic2" then
        [topic_value
          (Log.mk [] [[7], [8]] [] (some 1) (some []) (some 2) (some 3))
          2] else []) :=
  ⟨by decide,
    (claim_C3_topic_slots
      (Table.mk ["topic0", "topic1", "topic2", "topic3"] none)
      LogColumns.default
      (LogColumns.mk 1 [] [] [] [] [] [some [7]] [some [8]] [none]
        [none] [] [])
      (Log.mk [] [[7], [8]] [] (some 1) (some []) (some 2) (some 3))
      (by decide) rfl rfl rfl rfl).2.2.1⟩

/-- C5: frame effect — a fixed column absent from the schema is never
populated: after `process_logs` it holds exactly what it held before;
in particular, from an empty accumulator under the strict subset schema
requesting only `block_number`, every other fixed column and the
dynamic-column map stay empty. -/
theorem claim_C5_absent_columns (schema : Table) (logs : List Log)
    (c c' : LogColumns) (h : process_logs logs c schema = some c') :
    absent_cols_eq schema c c' ∧
    ∀ (logs' : List Log) (c'' : LogColumns),
      process_logs logs' LogColumns.default
        (Table.mk ["block_number"] none) = some c'' →
      c''.transaction_index = [] ∧ c''.log_index = [] ∧
      c''.transaction_hash = [] ∧ c''.address = [] ∧ c''.data = [] ∧
      c''.topic0 = [] ∧ c''.topic1 = [] ∧ c''.topic2 = [] ∧
      c''.topic3 = [] ∧ c''.event_cols = [] := by
  refine ⟨absent_cols_eq_process_logs h, fun logs' c'' h' => ?_⟩
  obtain ⟨a1, a2, a3, a4, a5, a6, a7, a8, a9, a10⟩ :=
    absent_cols_eq_process_logs h'
  have hev : c''.event_cols = [] := by
    rw [process_logs_none_decoder rfl] at h'
    exact foldlM_event_cols h'
  exact ⟨a2 (by decide), a3 (by decide), a4 (by decide), a5 (by decide),
    a6 (by decide), a7 (by decide), a8 (by decide), a9 (by decide),
    a10 (by decide), hev⟩

/-- C5 witness: a stored record under the `block_number`-only schema
populates nothing but `block_number`. -/
theorem claim_C5_witness :
    process_logs
        [Log.mk [4] [[6]] [5] (some 9) (some [8]) (some 1) (some 2)]
        LogColumns.default (Table.mk ["block_number"] none) =
      some (LogColumns.mk 1 [9] [] [] [] [] [] [] [] [] [] []) ∧
    (LogColumns.mk 1 [9] [] [] [] [] [] [] [] [] [] []).transaction_index
        = [] ∧
    (LogColumns.mk 1 [9] [] [] [] [] [] [] [] [] [] []).log_index = [] ∧
    (LogColumns.mk 1 [9] [] [] [] [] [] [] [] [] [] []).transaction_hash
        = [] ∧
    (LogColumns.mk 1 [9] [] [] [] [] [] [] [] [] [] []).address = [] ∧
    (LogColumns.mk 1 [9] [] [] [] [] [] [] [] [] [] []).data = [] ∧
    (LogColumns.mk 1 [9] [] [] [] [] [] [] [] [] [] []).topic0 = [] ∧
    (LogColumns.mk 1 [9] [] [] [] [] [] [] [] [] [] []).topic1 = [] ∧
    (LogColumns.mk 1 [9] [] [] [] [] [] [] [] [] [] []).topic2 = [] ∧
    (LogColumns.mk 1 [9] [] [] [] [] [] [] [] [] [] []).topic3 = [] ∧
    (LogColumns.mk 1 [9] [] [] [] [] [] [] [] [] [] []).event_cols = []
    :=
  ⟨by decide,
    (claim_C5_absent_columns (Table.mk ["block_number"] none)
      [Log.mk [4] [[6]] [5] (some 9) (some [8]) (some 1) (some 2)]
      LogColumns.default
      (LogColumns.mk 1 [9] [] [] [] [] [] [] [] [] [] [])
      (by decide)).2
      [Log.mk [4] [[6]] [5] (some 9) (some [8]) (some 1) (some 2)]
      (LogColumns.mk 1 [9] [] [] [] [] [] [] [] [] [] []) (by decide)⟩

/-- C8: event-decoder merge — with a decoder on the schema, the dynamic
columns after `process_logs` are the decoder's output for the entire
original batch (dropped records included) merged into the previous
dynamic columns, each named field extending its column or creating it;
hence two successive batches contributing `v1` and `v2` for the same
field leave one column holding `v1 ++ v2`, whose length is the sum of
the two contributions, first batch first. -/
theorem claim_C8_event_decoder_merge (schema : Table) (d : LogDecoder)
    (hd : schema.log_decoder = some d) :
    (∀ (logs : List Log) (c c' : LogColumns),
      process_logs logs c schema = some c' →
      c'.event_cols =
        event_merge c.event_cols (d.parse_log_from_event logs)) ∧
    ∀ (k : String) (v1 v2 : List Token) (logs1 logs2 : List Log)
      (c c1 c2 : LogColumns),
      d.parse_log_from_event logs1 = [(k, v1)] →
      d.parse_log_from_event logs2 = [(k, v2)] →
      event_col_values c.event_cols k = none →
      process_logs logs1 c schema = some c1 →
      process_logs logs2 c1 schema = some c2 →
      event_col_values c1.event_cols k = some v1 ∧
      event_col_values c2.event_cols k = some (v1 ++ v2) ∧
      (v1 ++ v2).length = v1.length + v2.length := by
  refine ⟨fun logs c c' h => process_logs_event_merge hd h,
    fun k v1 v2 logs1 logs2 c c1 c2 hp1 hp2 hk h1 h2 => ?_⟩
  have e1 : c1.event_cols = extend_event_col c.event_cols k v1 := by
    rw [process_logs_event_merge hd h1, hp1]
    rfl
  have e2 : c2.event_cols = extend_event_col c1.event_cols k v2 := by
    rw [process_logs_event_merge hd h2, hp2]
    rfl
  have f1 : event_col_values c1.event_cols k = some v1 := by
    rw [e1, event_col_values_extend, hk]
    rfl
  refine ⟨f1, ?_, List.length_append v1 v2⟩
  rw [e2, event_col_values_extend, f1]
  rfl

/-- C8 witness: a decoder counting each record's payload length sees
the dropped first-batch record, and the two batches merge into one
dynamic column in arrival order. -/
theorem claim_C8_witness :
    event_col_values
        (LogColumns.mk 1 [] [] [] [] [] [] [] [] [] []
          [("f", [Token.mk 2, Token.mk 1, Token.mk 1])]).event_cols "f" =
      some ([Token.mk 2] ++ [Token.mk 1, Token.mk 1]) :=
  ((claim_C8_event_decoder_merge
      (Table.mk []
        (some (LogDecoder.mk fun logs =>
          [("f", logs.map fun l => Token.mk l.data.length)])))
      (LogDecoder.mk fun logs =>
        [("f", logs.map fun l => Token.mk l.data.length)]) rfl).2
    "f" [Token.mk 2] [Token.mk 1, Token.mk 1]
    [Log.mk [] [] [9, 9] (some 0) none (some 0) (some 0)]
    [Log.mk [] [] [5] (some 1) (some []) (some 2) (some 3),
      Log.mk [] [] [6] (some 1) (some []) (some 2) none]
    LogColumns.default
    (LogColumns.mk 0 [] [] [] [] [] [] [] [] [] []
      [("f", [Token.mk 2])])
    (LogColumns.mk 1 [] [] [] [] [] [] [] [] [] []
      [("f", [Token.mk 2, Token.mk 1, Token.mk 1])])
    (by decide) (by decide) (by decide) (by decide) (by decide)).2.1

/-- C6: summary serialization — `completed_paths` flattens the resolved
paths of exactly the completed partitions, `errored_paths` flattens the
resolved paths of exactly those errored entries that carry a known
partition (partition-less errors contribute nothing), and `n_skipped`
counts the skipped partitions; in particular the spec's scenario
`completed = [P1]`, `errored = [none, some P2]`, `skipped = [P3, P4]`
serializes to `⟨paths P1, paths P2, 2⟩`. -/
theorem claim_C6_serialize_summary (summary : FreezeSummary)
    (query : Query) (sink : FileOutput) (P1 P2 P3 P4 : Partition) :
    (serialize_summary summary query sink).completed_paths =
      summary.completed.flatMap (sink.get_paths query) ∧
    (serialize_summary summary query sink).errored_paths =
      (summary.errored.filterMap id).flatMap (sink.get_paths query) ∧
    (serialize_summary summary query sink).n_skipped =
      summary.skipped.length ∧
    serialize_summary (FreezeSummary.mk [P1] [none, some P2] [P3, P4])
        query sink =
      SerializedFreezeSummary.mk (sink.get_paths query P1)
        (sink.get_paths query P2) 2 := by
  refine ⟨rfl, ?_, rfl, ?_⟩
  · show (summary.errored.filterMap fun partition_option =>
        partition_option.map fun partition =>
          sink.get_paths query partition).flatten = _
    rw [List.flatMap, List.map_filterMap]
    simp
  · simp [serialize_summary]

/-- C7: report paths — the report path is
`<report_dir>/<timestamp>.json` for a complete run and
`<report_dir>/incomplete_<timestamp>.json` otherwise, where
`report_dir` is the override when set and `<output_dir>/.cryo/reports`
otherwise; the two filenames for one start timestamp are always
distinct, and `write_report` picks the incomplete name exactly when
`freeze_summary` is `none`. -/
theorem claim_C7_report_path (env : ExecutionEnv) (sink : FileOutput)
    (v : String) (query : Query) :
    get_report_path env sink true =
      (match env.report_dir with
        | some rd => rd
        | none => sink.output_dir ++ "/.cryo/reports") ++ "/" ++
        (env.t_start.format ++ ".json") ∧
    get_report_path env sink false =
      (match env.report_dir with
        | some rd => rd
        | none => sink.output_dir ++ "/.cryo/reports") ++ "/" ++
        ("incomplete_" ++ (env.t_start.format ++ ".json")) ∧
    get_report_path env sink true ≠ get_report_path env sink false ∧
    (write_report v env query sink none).2 =
      get_report_path env sink false ∧
    ∀ s : FreezeSummary, (write_report v env query sink (some s)).2 =
      get_report_path env sink true := by
  refine ⟨rfl, rfl, ?_, rfl, fun s => rfl⟩
  intro e
  have hlen := congrArg String.length e
  simp only [get_report_path, if_true, Bool.false_eq_true, if_false,
    String.length_append] at hlen
  rw [show ("incomplete_" : String).length = 11 from rfl] at hlen
  omega

/-- C7 witness: for a concrete environment and sink, the complete and
incomplete report paths differ. -/
theorem claim_C7_witness :
    get_report_path
        (ExecutionEnv.mk none (Timestamp.mk 2024 1 2 3 4 5) none none)
        (FileOutput.mk "out" fun _ _ => []) true ≠
      get_report_path
        (ExecutionEnv.mk none (Timestamp.mk 2024 1 2 3 4 5) none none)
        (FileOutput.mk "out" fun _ _ => []) false :=
  (claim_C7_report_path
    (ExecutionEnv.mk none (Timestamp.mk 2024 1 2 3 4 5) none none)
    (FileOutput.mk "out" fun _ _ => []) "v" (Query.mk 0)).2.2.1

end Cryo
